import Mathlib

/-!
Shallow embedding of the cellular-automaton engine from
`src/automaton/mod.rs` (struct `Automaton` with `new`, `advance`,
`advance_multi`, `set_point`).  The `Grid`, `Rules` and
`CoordinatesIterator` collaborators are declared in `mod.rs` but their
source files are not part of the snapshot, so they are modelled from the
specification (grid with contiguous linear storage and mixed-radix
indexing, ordered first-match rule table, row-major coordinate
enumeration, Moore neighborhoods with background value 0 outside the
grid).  Machine integers (`u32`, `usize`) are modelled as `Nat`; the
generation counter update is taken modulo `2 ^ 32` to reflect `u32`
wrap-around of `self.gen += 1`.
-/

/-- Failure kinds of the engine, per the spec: shape mismatch (wrong
coordinate length or backing-size mismatch) and bounds violation (a
coordinate component at or past its axis size). -/
inductive Err where
  | shape
  | bounds
deriving DecidableEq, Repr

/-- Modelled from the spec: the `Grid` struct of the missing
`src/automaton/grid.rs` — dense contiguous linear storage, one cell value
per valid coordinate; `dims` is the axis-size sequence and `grid` the
flat backing content (row-major, mixed-radix indexed). -/
structure Grid where
  dims : List Nat
  grid : List Nat
deriving DecidableEq, Repr

/-- The grid invariant from the spec data model: backing size is exactly
the product of the dimensions. -/
def Grid.WF (g : Grid) : Prop := g.grid.length = g.dims.prod

instance (g : Grid) : Decidable g.WF := by
  unfold Grid.WF
  infer_instance

/-- Coordinate validity: same length as `dims` and each component
strictly below its axis size. -/
def inBounds : List Nat → List Nat → Bool
  | [], [] => true
  | c :: cs, d :: ds => decide (c < d) && inBounds cs ds
  | _, _ => false

/-- Mixed-radix (row-major, last axis fastest) conversion of a
coordinate to a flat offset, per the spec design notes. -/
def idx : List Nat → List Nat → Nat
  | _ :: ds, c :: cs => c * ds.prod + idx ds cs
  | _, _ => 0

/-- Cell value at a coordinate (0 when the flat offset is out of the
backing store, which cannot happen for valid coordinates of a
well-formed grid). -/
def Grid.get (g : Grid) (c : List Nat) : Nat := g.grid.getD (idx g.dims c) 0

/-- Modelled from the spec: `Grid::set_point` of the missing
`src/automaton/grid.rs` — fails with a shape mismatch when the
coordinate length differs from the dimensionality, with a bounds
violation when a component is out of range, and otherwise writes the
value at the coordinate's flat offset. -/
def Grid.set_point (g : Grid) (c : List Nat) (v : Nat) : Except Err Grid :=
  if c.length = g.dims.length then
    if inBounds c g.dims then .ok { g with grid := g.grid.set (idx g.dims c) v }
    else .error .bounds
  else .error .shape

/-- Modelled from the spec: `Grid` construction — the backing size must
equal the product of the dims, otherwise a shape mismatch. -/
def Grid.construct (dims vals : List Nat) : Except Err Grid :=
  if vals.length = dims.prod then .ok ⟨dims, vals⟩ else .error .shape

/-- Modelled from the spec: `snapshot()` returns the full current
backing content. -/
def Grid.snapshot (g : Grid) : List Nat := g.grid

/-- All offset vectors of a `d`-dimensional Moore neighborhood: nested
iteration over each axis's offset range `{-1, 0, +1}`, first axis
outermost, yielding `3 ^ d` vectors. -/
def offsetsList : Nat → List (List Int)
  | 0 => [[]]
  | n + 1 => ([-1, 0, 1] : List Int).flatMap fun o => (offsetsList n).map (o :: ·)

/-- A (possibly negative) shifted position is addressable when every
component lies in `[0, axis size)`. -/
def inBoundsInt : List Int → List Nat → Bool
  | [], [] => true
  | p :: ps, d :: ds => decide (0 ≤ p) && decide (p < (d : Int)) && inBoundsInt ps ds
  | _, _ => false

/-- Componentwise shift of a coordinate by an offset vector. -/
def shiftCoord (c : List Nat) (off : List Int) : List Int :=
  List.zipWith (fun x o => (x : Int) + o) c off

/-- Value seen at a shifted position: the stored cell when addressable,
the background/quiescent value 0 otherwise. -/
def Grid.atOffset (g : Grid) (pos : List Int) : Nat :=
  if inBoundsInt pos g.dims then g.get (pos.map Int.toNat) else 0

/-- The neighborhood values of a coordinate, in offset order. -/
def Grid.nbhdList (g : Grid) (c : List Nat) : List Nat :=
  (offsetsList g.dims.length).map fun off => g.atOffset (shiftCoord c off)

/-- Modelled from the spec: `Grid::neighborhood` of the missing
`src/automaton/grid.rs` — fails only when the input coordinate's length
differs from the dimensionality; out-of-range neighbor positions
contribute the background value 0 instead of failing. -/
def Grid.neighborhood (g : Grid) (c : List Nat) : Except Err (List Nat) :=
  if c.length = g.dims.length then .ok (g.nbhdList c) else .error .shape

/-- Modelled from the spec: a `Rule` of the missing
`src/automaton/rules.rs` — a fixed pattern of expected neighbor values
plus one output value. -/
structure Rule where
  pattern : List Nat
  output : Nat
deriving DecidableEq, Repr

/-- Modelled from the spec: the `Rules` table of the missing
`src/automaton/rules.rs` — an ordered list of rules. -/
structure Rules where
  rules : List Rule
deriving DecidableEq, Repr

/-- First-match scan over a rule list. -/
def findMatch : List Rule → List Nat → Option Nat
  | [], _ => none
  | r :: rs, nb => if r.pattern = nb then some r.output else findMatch rs nb

/-- Modelled from the spec: `Rules::apply` — scans entries in list
order and returns the output of the first rule whose pattern equals the
neighborhood, `none` when no rule matches. -/
def Rules.apply (t : Rules) (nb : List Nat) : Option Nat := findMatch t.rules nb

/-- Modelled from the spec: the `CoordinatesIterator` of the missing
`src/utils/coordinates_iterator.rs`, as the list of coordinates it
yields — every addressable position exactly once, row-major with the
last axis fastest-varying. -/
def CoordinatesIterator : List Nat → List (List Nat)
  | [] => [[]]
  | d :: ds => (List.range d).flatMap fun i => (CoordinatesIterator ds).map (i :: ·)

/-- The `Automaton` struct of `src/automaton/mod.rs`: one grid, one rule
table, and the `u32` generation counter. -/
structure Automaton where
  grid : Grid
  rules : Rules
  gen : Nat
deriving DecidableEq, Repr

/-- `Automaton::new`: stores the grid and rules and starts the
generation counter at 0. -/
def Automaton.new (g : Grid) (rs : Rules) : Automaton := ⟨g, rs, 0⟩

/-- The coordinate sweep inside `Automaton::advance`: for each
coordinate, take the neighborhood of the pre-step grid `pre`, apply the
rule table, and on a match write the output into the accumulator grid;
`?`-propagate the first failure. -/
def sweep (pre : Grid) (rs : Rules) : List (List Nat) → Grid → Except Err Grid
  | [], acc => .ok acc
  | c :: cs, acc =>
    match pre.neighborhood c with
    | .error e => .error e
    | .ok nb =>
      match rs.apply nb with
      | some v =>
        match acc.set_point c v with
        | .error e => .error e
        | .ok acc' => sweep pre rs cs acc'
      | none => sweep pre rs cs acc

/-- `Automaton::advance` with the coordinate list made explicit: build
the new grid as an exact copy of the current one, run the sweep, and
only on success swap in the new grid and bump the generation counter
(`u32` wrap-around modelled by `% 2 ^ 32`); on failure return the error
with the state untouched. -/
def Automaton.advanceOn (a : Automaton) (cs : List (List Nat)) : Except Err Unit × Automaton :=
  match sweep a.grid a.rules cs { dims := a.grid.dims, grid := a.grid.grid } with
  | .ok g => (.ok (), { grid := g, rules := a.rules, gen := (a.gen + 1) % 2 ^ 32 })
  | .error e => (.error e, a)

/-- `Automaton::advance`: the sweep runs over the coordinates produced
by `CoordinatesIterator::new(dims)`. -/
def Automaton.advance (a : Automaton) : Except Err Unit × Automaton :=
  a.advanceOn (CoordinatesIterator a.grid.dims)

/-- `Automaton::advance_multi`: call `advance` `gens` times, stopping at
and propagating the first failure. -/
def Automaton.advance_multi (a : Automaton) : Nat → Except Err Unit × Automaton
  | 0 => (.ok (), a)
  | n + 1 =>
    match a.advance with
    | (.ok _, a') => a'.advance_multi n
    | (.error e, a') => (.error e, a')

/-- `Automaton::set_point`: write the value 1 at the coordinate directly
on the live grid; on failure the state is untouched. -/
def Automaton.set_point (a : Automaton) (p : List Nat) : Except Err Unit × Automaton :=
  match a.grid.set_point p 1 with
  | .ok g => (.ok (), { a with grid := g })
  | .error e => (.error e, a)

/-- Spec-side description of `advance_multi(n)` for the refinement claim
C4: the result of calling `advance()` `n` times sequentially,
propagating the first failure, written with the last call outermost. -/
def seqAdvanceCalls (a : Automaton) : Nat → Except Err Unit × Automaton
  | 0 => (.ok (), a)
  | n + 1 =>
    match seqAdvanceCalls a n with
    | (.ok _, a') => a'.advance
    | (.error e, a') => (.error e, a')

/-- A valid coordinate has exactly one component per axis. -/
theorem inBounds_length : ∀ {c ds : List Nat}, inBounds c ds = true → c.length = ds.length
  | [], [], _ => rfl
  | [], _ :: _, h => by simp [inBounds] at h
  | _ :: _, [], h => by simp [inBounds] at h
  | _ :: cs, _ :: ds, h => by
    simp only [inBounds, Bool.and_eq_true, decide_eq_true_eq] at h
    simpa [List.length_cons] using inBounds_length h.2

/-- Axes along a valid coordinate all have positive size. -/
theorem prod_pos_of_inBounds : ∀ {c ds : List Nat}, inBounds c ds = true → 0 < ds.prod
  | [], [], _ => Nat.one_pos
  | [], _ :: _, h => by simp [inBounds] at h
  | _ :: _, [], h => by simp [inBounds] at h
  | _ :: cs, d :: ds, h => by
    simp only [inBounds, Bool.and_eq_true, decide_eq_true_eq] at h
    have ih := prod_pos_of_inBounds h.2
    have : 0 < d := Nat.lt_of_le_of_lt (Nat.zero_le _) h.1
    simpa [List.prod_cons] using Nat.mul_pos this ih

/-- The mixed-radix offset of a valid coordinate is below the backing
size. -/
theorem idx_lt_prod : ∀ {c ds : List Nat}, inBounds c ds = true → idx ds c < ds.prod
  | [], [], _ => by simp [idx]
  | [], _ :: _, h => by simp [inBounds] at h
  | _ :: _, [], h => by simp [inBounds] at h
  | c :: cs, d :: ds, h => by
    simp only [inBounds, Bool.and_eq_true, decide_eq_true_eq] at h
    have ih := idx_lt_prod h.2
    simp only [idx, List.prod_cons]
    calc c * ds.prod + idx ds cs < c * ds.prod + ds.prod := by omega
      _ = (c + 1) * ds.prod := by ring
      _ ≤ d * ds.prod := Nat.mul_le_mul_right _ h.1

/-- Mixed-radix indexing is injective on valid coordinates. -/
theorem idx_inj : ∀ {ds c₁ c₂ : List Nat}, inBounds c₁ ds = true → inBounds c₂ ds = true →
    idx ds c₁ = idx ds c₂ → c₁ = c₂ := by
  intro ds
  induction ds with
  | nil =>
    intro c₁ c₂ h₁ h₂ _
    cases c₁ <;> cases c₂ <;> simp_all [inBounds]
  | cons d ds ih =>
    intro c₁ c₂ h₁ h₂ he
    cases c₁ with
    | nil => simp [inBounds] at h₁
    | cons a as =>
      cases c₂ with
      | nil => simp [inBounds] at h₂
      | cons b bs =>
        simp only [inBounds, Bool.and_eq_true, decide_eq_true_eq] at h₁ h₂
        simp only [idx] at he
        have hp : 0 < ds.prod := prod_pos_of_inBounds h₁.2
        have lt₁ : idx ds as < ds.prod := idx_lt_prod h₁.2
        have lt₂ : idx ds bs < ds.prod := idx_lt_prod h₂.2
        have hdiv : ∀ (x : Nat) (r : Nat), r < ds.prod → (x * ds.prod + r) / ds.prod = x := by
          intro x r hr
          rw [Nat.mul_comm x, Nat.mul_add_div hp, Nat.div_eq_of_lt hr, Nat.add_zero]
        have hab : a = b := by
          have := congrArg (· / ds.prod) he
          simpa [hdiv a _ lt₁, hdiv b _ lt₂] using this
        subst hab
        have hrest : idx ds as = idx ds bs := Nat.add_left_cancel he
        rw [ih h₁.2 h₂.2 hrest]

/-- The coordinate enumerator yields exactly the valid coordinates. -/
theorem mem_CoordinatesIterator : ∀ {ds c : List Nat},
    c ∈ CoordinatesIterator ds ↔ inBounds c ds = true := by
  intro ds
  induction ds with
  | nil =>
    intro c
    cases c <;> simp [CoordinatesIterator, inBounds]
  | cons d ds ih =>
    intro c
    simp only [CoordinatesIterator, List.mem_flatMap, List.mem_map, List.mem_range]
    constructor
    · rintro ⟨i, hi, c', hc', rfl⟩
      simp [inBounds, hi, ih.mp hc']
    · intro h
      cases c with
      | nil => simp [inBounds] at h
      | cons a as =>
        simp only [inBounds, Bool.and_eq_true, decide_eq_true_eq] at h
        exact ⟨a, h.1, as, ih.mpr h.2, rfl⟩

/-- The coordinate enumerator yields every position exactly once. -/
theorem nodup_CoordinatesIterator : ∀ (ds : List Nat), (CoordinatesIterator ds).Nodup := by
  intro ds
  induction ds with
  | nil => simp [CoordinatesIterator]
  | cons d ds ih =>
    simp only [CoordinatesIterator]
    refine List.nodup_flatMap.mpr ⟨fun i _ => ih.map fun x y hxy => ?_, ?_⟩
    · exact (List.cons_eq_cons.mp hxy).2
    · refine (List.pairwise_lt_range d).imp ?_
      intro i j hij
      intro x hx hy
      obtain ⟨xi, _, rfl⟩ := List.mem_map.mp hx
      obtain ⟨yj, _, hyj⟩ := List.mem_map.mp hy
      exact Nat.ne_of_lt hij ((List.cons_eq_cons.mp hyj).1.symm)

/-- On a well-formed grid, writing a valid coordinate stores the value
at that coordinate. -/
theorem Grid.get_set_self (g : Grid) (c : List Nat) (v : Nat)
    (hlen : g.grid.length = g.dims.prod) (hb : inBounds c g.dims = true) :
    Grid.get { g with grid := g.grid.set (idx g.dims c) v } c = v := by
  have hidx : idx g.dims c < g.grid.length := hlen ▸ idx_lt_prod hb
  simp only [Grid.get, List.getD_eq_getElem?_getD, List.getElem?_set_self hidx, Option.getD_some]

/-- Writing one valid coordinate leaves every other valid coordinate
unchanged. -/
theorem Grid.get_set_ne (g : Grid) (c c' : List Nat) (v : Nat)
    (hb : inBounds c g.dims = true) (hb' : inBounds c' g.dims = true) (hne : c' ≠ c) :
    Grid.get { g with grid := g.grid.set (idx g.dims c) v } c' = g.get c' := by
  have hidx : idx g.dims c ≠ idx g.dims c' := fun h => hne (idx_inj hb hb' h).symm
  simp only [Grid.get, List.getD_eq_getElem?_getD, List.getElem?_set_ne hidx]

/-- `set_point` succeeds on a valid coordinate and writes at its flat
offset. -/
theorem Grid.set_point_ok (g : Grid) (c : List Nat) (v : Nat) (hb : inBounds c g.dims = true) :
    g.set_point c v = .ok { g with grid := g.grid.set (idx g.dims c) v } := by
  unfold Grid.set_point
  rw [if_pos (inBounds_length hb), if_pos hb]

/-- `neighborhood` succeeds on a coordinate of the correct length. -/
theorem Grid.neighborhood_ok (g : Grid) (c : List Nat) (h : c.length = g.dims.length) :
    g.neighborhood c = .ok (g.nbhdList c) := by
  unfold Grid.neighborhood
  rw [if_pos h]

/-- Core characterization of the coordinate sweep: over any
duplicate-free list of valid coordinates it succeeds, and each valid
cell of the resulting grid holds the rule output for its neighborhood in
the pre-step grid when the cell was swept and a rule matched, and its
accumulator value otherwise. -/
theorem sweep_char (pre : Grid) (rs : Rules) :
    ∀ (cs : List (List Nat)) (acc : Grid),
      acc.dims = pre.dims → acc.grid.length = pre.dims.prod →
      (∀ c ∈ cs, inBounds c pre.dims = true) → cs.Nodup →
      ∃ g, sweep pre rs cs acc = .ok g ∧ g.dims = pre.dims ∧
        g.grid.length = pre.dims.prod ∧
        ∀ c, inBounds c pre.dims = true →
          g.get c = if c ∈ cs then
              match rs.apply (pre.nbhdList c) with
              | some v => v
              | none => acc.get c
            else acc.get c := by
  intro cs
  induction cs with
  | nil =>
    intro acc hdims hlen _ _
    exact ⟨acc, rfl, hdims, hlen, fun c _ => by simp⟩
  | cons c₀ cs ih =>
    intro acc hdims hlen hval hnd
    have hb₀ : inBounds c₀ pre.dims = true := hval c₀ (List.mem_cons_self c₀ cs)
    have hnb := pre.neighborhood_ok c₀ (inBounds_length hb₀)
    have hnotmem : c₀ ∉ cs := (List.nodup_cons.mp hnd).1
    have hndtail : cs.Nodup := (List.nodup_cons.mp hnd).2
    have hvaltail : ∀ c ∈ cs, inBounds c pre.dims = true :=
      fun c hc => hval c (List.mem_cons_of_mem c₀ hc)
    cases happ : rs.apply (pre.nbhdList c₀) with
    | none =>
      obtain ⟨g, hg, h1, h2, h3⟩ := ih acc hdims hlen hvaltail hndtail
      refine ⟨g, ?_, h1, h2, fun c hc => ?_⟩
      · simp only [sweep, hnb, happ]
        exact hg
      · rw [h3 c hc]
        by_cases hcc : c = c₀
        · subst hcc
          simp [hnotmem, happ]
        · simp [List.mem_cons, hcc]
    | some v =>
      have hb₀' : inBounds c₀ acc.dims = true := by rw [hdims]; exact hb₀
      have hset := acc.set_point_ok c₀ v hb₀'
      have hdims' : Grid.dims { acc with grid := acc.grid.set (idx acc.dims c₀) v } = pre.dims :=
        hdims
      have hlen' :
          (Grid.grid { acc with grid := acc.grid.set (idx acc.dims c₀) v }).length =
            pre.dims.prod := by
        simpa [List.length_set] using hlen
      obtain ⟨g, hg, h1, h2, h3⟩ :=
        ih { acc with grid := acc.grid.set (idx acc.dims c₀) v } hdims' hlen' hvaltail hndtail
      refine ⟨g, ?_, h1, h2, fun c hc => ?_⟩
      · simp only [sweep, hnb, happ, hset]
        exact hg
      · rw [h3 c hc]
        by_cases hcc : c = c₀
        · subst hcc
          have hv : Grid.get { acc with grid := acc.grid.set (idx acc.dims c) v } c = v :=
            Grid.get_set_self acc c v (by rw [hdims]; exact hlen) hb₀'
          simp [hnotmem, happ, hv]
        · have hkeep :
              Grid.get { acc with grid := acc.grid.set (idx acc.dims c₀) v } c = acc.get c :=
            Grid.get_set_ne acc c₀ c v hb₀' (by rw [hdims]; exact hc) hcc
          simp [List.mem_cons, hcc, hkeep]

/-- Characterization of `advanceOn` over any duplicate-free list of
valid coordinates: it succeeds, keeps the rule table, bumps the
generation counter modulo `2 ^ 32`, and each valid cell of the new grid
is the rule output for its pre-step neighborhood when swept and matched,
its previous value otherwise. -/
theorem advanceOn_char (a : Automaton) (cs : List (List Nat)) (hWF : a.grid.WF)
    (hval : ∀ c ∈ cs, inBounds c a.grid.dims = true) (hnd : cs.Nodup) :
    (a.advanceOn cs).1 = .ok () ∧ (a.advanceOn cs).2.rules = a.rules ∧
    (a.advanceOn cs).2.gen = (a.gen + 1) % 2 ^ 32 ∧
    (a.advanceOn cs).2.grid.dims = a.grid.dims ∧
    (a.advanceOn cs).2.grid.grid.length = a.grid.dims.prod ∧
    ∀ c, inBounds c a.grid.dims = true →
      (a.advanceOn cs).2.grid.get c =
        if c ∈ cs then
          match a.rules.apply (a.grid.nbhdList c) with
          | some v => v
          | none => a.grid.get c
        else a.grid.get c := by
  obtain ⟨g, hg, h1, h2, h3⟩ :=
    sweep_char a.grid a.rules cs ⟨a.grid.dims, a.grid.grid⟩ rfl hWF hval hnd
  have heq : a.advanceOn cs = (.ok (), ⟨g, a.rules, (a.gen + 1) % 2 ^ 32⟩) := by
    unfold Automaton.advanceOn
    rw [hg]
  rw [heq]
  exact ⟨rfl, rfl, rfl, h1, h2, fun c hc => h3 c hc⟩

/-- The concrete 3-cell automaton of the repository's
`test_advance_generation` test: values `[1, 2, 3]`, one rule
`[1, 2, 3] → 4`. -/
def demoA : Automaton := Automaton.new ⟨[3], [1, 2, 3]⟩ ⟨[⟨[1, 2, 3], 4⟩]⟩

/-- A 1-cell automaton whose single rule matches the all-background
neighborhood, so sweeping an out-of-range coordinate makes the write
step fail. -/
def errDemo : Automaton := Automaton.new ⟨[1], [5]⟩ ⟨[⟨[0, 0, 0], 7⟩]⟩

/-- C1: if any step of the coordinate sweep inside `advance()` fails,
the failure is returned and the automaton (grid and generation counter)
is exactly as before the call — the swap never happens; if the sweep
completes, the current grid is replaced by the newly built grid and the
generation counter is incremented by one (as the `u32` increment, i.e.
modulo `2 ^ 32`).  `advance()` is `advanceOn` applied to the enumerator
output. -/
theorem C1_advance_rollback_and_commit (a : Automaton) (cs : List (List Nat)) :
    a.advance = a.advanceOn (CoordinatesIterator a.grid.dims) ∧
    (∀ e, (a.advanceOn cs).1 = .error e → (a.advanceOn cs).2 = a) ∧
    ((a.advanceOn cs).1 = .ok () →
      ∃ g, sweep a.grid a.rules cs ⟨a.grid.dims, a.grid.grid⟩ = .ok g ∧
        (a.advanceOn cs).2 = ⟨g, a.rules, (a.gen + 1) % 2 ^ 32⟩) := by
  refine ⟨rfl, ?_, ?_⟩
  · intro e he
    unfold Automaton.advanceOn at he ⊢
    cases hs : sweep a.grid a.rules cs ⟨a.grid.dims, a.grid.grid⟩ with
    | ok g => rw [hs] at he; exact absurd he (by simp)
    | error e' => rfl
  · intro hok
    unfold Automaton.advanceOn at hok ⊢
    cases hs : sweep a.grid a.rules cs ⟨a.grid.dims, a.grid.grid⟩ with
    | ok g => exact ⟨g, rfl, rfl⟩
    | error e' => rw [hs] at hok; exact absurd hok (by simp)

theorem C1_witness :
    ((errDemo.advanceOn [[3]]).2 = errDemo) ∧
    ∃ g, sweep demoA.grid demoA.rules (CoordinatesIterator demoA.grid.dims)
        ⟨demoA.grid.dims, demoA.grid.grid⟩ = .ok g ∧
      (demoA.advanceOn (CoordinatesIterator demoA.grid.dims)).2 =
        ⟨g, demoA.rules, (demoA.gen + 1) % 2 ^ 32⟩ :=
  ⟨(C1_advance_rollback_and_commit errDemo [[3]]).2.1 Err.bounds (by rfl),
   (C1_advance_rollback_and_commit demoA (CoordinatesIterator demoA.grid.dims)).2.2 (by rfl)⟩

/-- C2: during one `advance()` call every neighborhood handed to the
rule table is computed from the pre-step grid as it was when the call
began — the value of each valid cell after the step is a function of
the pre-step grid only — and the same holds for a sweep over any
duplicate-free list of valid coordinates in any order. -/
theorem C2_synchronous_update (a : Automaton) (c : List Nat)
    (hWF : a.grid.WF) (hc : inBounds c a.grid.dims = true) :
    ((a.advance).2.grid.get c =
      match a.rules.apply (a.grid.nbhdList c) with
      | some v => v
      | none => a.grid.get c) ∧
    ∀ cs, cs.Nodup → (∀ x ∈ cs, inBounds x a.grid.dims = true) →
      (a.advanceOn cs).2.grid.get c =
        if c ∈ cs then
          match a.rules.apply (a.grid.nbhdList c) with
          | some v => v
          | none => a.grid.get c
        else a.grid.get c := by
  constructor
  · have h := advanceOn_char a (CoordinatesIterator a.grid.dims) hWF
      (fun x hx => mem_CoordinatesIterator.mp hx) (nodup_CoordinatesIterator _)
    have hcell := h.2.2.2.2.2 c hc
    rw [if_pos (mem_CoordinatesIterator.mpr hc)] at hcell
    exact hcell
  · intro cs hnd hval
    exact (advanceOn_char a cs hWF hval hnd).2.2.2.2.2 c hc

theorem C2_witness :
    (demoA.advance).2.grid.get [1] =
      match demoA.rules.apply (demoA.grid.nbhdList [1]) with
      | some v => v
      | none => demoA.grid.get [1] :=
  (C2_synchronous_update demoA [1] (by decide) (by decide)).1

/-- C3: if the rule table matches no rule against a valid coordinate's
pre-step neighborhood, `advance()` succeeds and leaves that cell's value
unchanged — the new grid starts as a copy and unmatched cells are never
overwritten. -/
theorem C3_unmatched_cell_unchanged (a : Automaton) (c : List Nat)
    (hWF : a.grid.WF) (hc : inBounds c a.grid.dims = true)
    (hnone : a.rules.apply (a.grid.nbhdList c) = none) :
    (a.advance).1 = .ok () ∧ (a.advance).2.grid.get c = a.grid.get c := by
  have h := advanceOn_char a (CoordinatesIterator a.grid.dims) hWF
    (fun x hx => mem_CoordinatesIterator.mp hx) (nodup_CoordinatesIterator _)
  refine ⟨h.1, ?_⟩
  have hcell := h.2.2.2.2.2 c hc
  rw [if_pos (mem_CoordinatesIterator.mpr hc), hnone] at hcell
  exact hcell

theorem C3_witness :
    (demoA.advance).1 = .ok () ∧ (demoA.advance).2.grid.get [0] = demoA.grid.get [0] :=
  C3_unmatched_cell_unchanged demoA [0] (by decide) (by decide) (by decide)

/-- Peeling the last call off the `advance_multi` loop: `n + 1`
iterations are `n` iterations followed by one more `advance` when those
succeeded, and the propagated failure otherwise. -/
theorem advance_multi_succ (a : Automaton) (n : Nat) :
    a.advance_multi (n + 1) =
      match a.advance_multi n with
      | (.ok _, a') => a'.advance
      | (.error e, a') => (.error e, a') := by
  induction n generalizing a with
  | zero =>
    rcases ha : a.advance with ⟨r, a'⟩
    cases r with
    | ok u =>
      cases u
      simp [Automaton.advance_multi, ha]
    | error e => simp [Automaton.advance_multi, ha]
  | succ n ih =>
    rcases ha : a.advance with ⟨r, a₁⟩
    cases r with
    | ok u =>
      cases u
      have h1 : a.advance_multi (n + 1 + 1) = a₁.advance_multi (n + 1) := by
        simp [Automaton.advance_multi, ha]
      have h2 : a.advance_multi (n + 1) = a₁.advance_multi n := by
        simp [Automaton.advance_multi, ha]
      rw [h1, h2, ih a₁]
    | error e =>
      have h1 : a.advance_multi (n + 1 + 1) = (.error e, a₁) := by
        simp [Automaton.advance_multi, ha]
      have h2 : a.advance_multi (n + 1) = (.error e, a₁) := by
        simp [Automaton.advance_multi, ha]
      rw [h1, h2]

/-- C4: `advance_multi(n)` produces exactly the same result and final
state as calling `advance()` `n` times sequentially (propagating the
first failure), and `advance_multi(0)` succeeds leaving the automaton
unchanged. -/
theorem C4_advance_multi_is_sequential (a : Automaton) (n : Nat) :
    a.advance_multi n = seqAdvanceCalls a n ∧ a.advance_multi 0 = (.ok (), a) := by
  refine ⟨?_, rfl⟩
  induction n with
  | zero => rfl
  | succ n ih =>
    rw [advance_multi_succ, ih]
    rfl

/-- C5: constructing an automaton from any dims and initial values
whose count equals the dimension product yields generation 0 and a grid
snapshot identical to the initial values. -/
theorem C5_new_automaton (dims vals : List Nat) (rs : Rules)
    (h : vals.length = dims.prod) :
    ∃ g, Grid.construct dims vals = .ok g ∧
      (Automaton.new g rs).gen = 0 ∧ (Automaton.new g rs).grid.snapshot = vals := by
  refine ⟨⟨dims, vals⟩, ?_, rfl, rfl⟩
  unfold Grid.construct
  rw [if_pos h]

theorem C5_witness :
    ([1, 2, 3] : List Nat).length = List.prod [3] ∧
    ∃ g, Grid.construct [3] [1, 2, 3] = .ok g ∧
      (Automaton.new g ⟨[⟨[1, 2, 3], 4⟩]⟩).gen = 0 ∧
      (Automaton.new g ⟨[⟨[1, 2, 3], 4⟩]⟩).grid.snapshot = [1, 2, 3] :=
  ⟨by decide, C5_new_automaton [3] [1, 2, 3] ⟨[⟨[1, 2, 3], 4⟩]⟩ (by decide)⟩

/-- C6: on a well-formed grid, `Automaton.set_point` at an in-bounds
correct-length coordinate succeeds, forces that cell to 1 regardless of
its prior value, and leaves every other valid cell, the generation
counter and the rule table unchanged. -/
theorem C6_set_point_frame (a : Automaton) (c : List Nat)
    (hWF : a.grid.WF) (hc : inBounds c a.grid.dims = true) :
    (a.set_point c).1 = .ok () ∧
    (a.set_point c).2.grid.get c = 1 ∧
    (∀ c', inBounds c' a.grid.dims = true → c' ≠ c →
      (a.set_point c).2.grid.get c' = a.grid.get c') ∧
    (a.set_point c).2.gen = a.gen ∧
    (a.set_point c).2.rules = a.rules := by
  have hset := a.grid.set_point_ok c 1 hc
  have heq : a.set_point c =
      (.ok (), { a with grid := { a.grid with grid := a.grid.grid.set (idx a.grid.dims c) 1 } }) := by
    unfold Automaton.set_point
    rw [hset]
  rw [heq]
  refine ⟨rfl, ?_, ?_, rfl, rfl⟩
  · exact Grid.get_set_self a.grid c 1 hWF hc
  · intro c' hc' hne
    exact Grid.get_set_ne a.grid c c' 1 hc hc' hne

theorem C6_witness :
    (demoA.set_point [2]).1 = .ok () ∧
    (demoA.set_point [2]).2.grid.get [2] = 1 ∧
    (∀ c', inBounds c' demoA.grid.dims = true → c' ≠ [2] →
      (demoA.set_point [2]).2.grid.get c' = demoA.grid.get c') ∧
    (demoA.set_point [2]).2.gen = demoA.gen ∧
    (demoA.set_point [2]).2.rules = demoA.rules :=
  C6_set_point_frame demoA [2] (by decide) (by decide)

/-- C7: concrete scenario A — on the 1-dimensional 3-cell grid
`[1, 2, 3]` with the single rule `[1, 2, 3] → 4`, one `advance()` call
succeeds and yields the grid `[1, 4, 3]` at generation 1: the middle
cell becomes 4 and the edge cells keep their prior values. -/
theorem C7_scenario_A :
    Automaton.advance (Automaton.new ⟨[3], [1, 2, 3]⟩ ⟨[⟨[1, 2, 3], 4⟩]⟩) =
      (.ok (), ⟨⟨[3], [1, 4, 3]⟩, ⟨[⟨[1, 2, 3], 4⟩]⟩, 1⟩) := rfl

/-- The first-match scan returns nothing exactly when no rule's pattern
equals the neighborhood. -/
theorem findMatch_eq_none {rs : List Rule} {nb : List Nat} :
    findMatch rs nb = none ↔ ∀ r ∈ rs, r.pattern ≠ nb := by
  induction rs with
  | nil => simp [findMatch]
  | cons r rs ih =>
    by_cases h : r.pattern = nb
    · simp [findMatch, h]
    · simp [findMatch, h, ih]

/-- The first-match scan returns `o` exactly when the list splits as a
block of non-matching rules followed by a rule with the queried pattern
and output `o`. -/
theorem findMatch_eq_some {rs : List Rule} {nb : List Nat} {o : Nat} :
    findMatch rs nb = some o ↔
      ∃ pre r post, rs = pre ++ r :: post ∧ r.pattern = nb ∧ r.output = o ∧
        ∀ r' ∈ pre, r'.pattern ≠ nb := by
  induction rs with
  | nil =>
    constructor
    · intro h
      simp [findMatch] at h
    · rintro ⟨pre, r, post, h, -, -, -⟩
      exact absurd h (by simp)
  | cons r₀ rs ih =>
    by_cases h : r₀.pattern = nb
    · simp only [findMatch, if_pos h, Option.some.injEq]
      constructor
      · intro ho
        exact ⟨[], r₀, rs, rfl, h, ho, by simp⟩
      · rintro ⟨pre, r, post, hdec, hpat, hout, hpre⟩
        cases pre with
        | nil =>
          simp only [List.nil_append] at hdec
          obtain ⟨rfl, rfl⟩ := List.cons_eq_cons.mp hdec
          exact hout
        | cons p pre' =>
          simp only [List.cons_append] at hdec
          obtain ⟨rfl, -⟩ := List.cons_eq_cons.mp hdec
          exact absurd h (hpre r₀ (List.mem_cons_self r₀ pre'))
    · simp only [findMatch, if_neg h]
      rw [ih]
      constructor
      · rintro ⟨pre, r, post, hdec, hpat, hout, hpre⟩
        refine ⟨r₀ :: pre, r, post, by rw [List.cons_append, hdec], hpat, hout, ?_⟩
        intro r' hr'
        rcases List.mem_cons.mp hr' with rfl | hr'
        · exact h
        · exact hpre r' hr'
      · rintro ⟨pre, r, post, hdec, hpat, hout, hpre⟩
        cases pre with
        | nil =>
          simp only [List.nil_append] at hdec
          obtain ⟨rfl, -⟩ := List.cons_eq_cons.mp hdec
          exact absurd hpat h
        | cons p pre' =>
          simp only [List.cons_append] at hdec
          obtain ⟨rfl, hrest⟩ := List.cons_eq_cons.mp hdec
          exact ⟨pre', r, post, hrest, hpat, hout,
            fun r' hr' => hpre r' (List.mem_cons_of_mem r₀ hr')⟩

/-- The first-match scan over a concatenation tries the left list
first. -/
theorem findMatch_append (rs₁ rs₂ : List Rule) (nb : List Nat) :
    findMatch (rs₁ ++ rs₂) nb =
      match findMatch rs₁ nb with
      | some o => some o
      | none => findMatch rs₂ nb := by
  induction rs₁ with
  | nil => simp [findMatch]
  | cons r rs ih =>
    by_cases h : r.pattern = nb
    · simp [findMatch, h]
    · simp [findMatch, h, ih]

/-- C8: `Rules::apply` is a pure, order-sensitive first-match function:
it returns none exactly when no pattern equals the neighborhood, returns
`o` exactly when the table splits as non-matching rules followed by a
matching rule with output `o`, scans a concatenation left part first,
and with two rules of identical pattern always returns the earlier
rule's output. -/
theorem C8_rules_apply_first_match (t : Rules) (nb : List Nat) :
    (t.apply nb = none ↔ ∀ r ∈ t.rules, r.pattern ≠ nb) ∧
    (∀ o, t.apply nb = some o ↔
      ∃ pre r post, t.rules = pre ++ r :: post ∧ r.pattern = nb ∧ r.output = o ∧
        ∀ r' ∈ pre, r'.pattern ≠ nb) ∧
    (∀ rs₂ : List Rule, Rules.apply ⟨t.rules ++ rs₂⟩ nb =
      match t.apply nb with
      | some o => some o
      | none => Rules.apply ⟨rs₂⟩ nb) ∧
    (∀ (r₁ r₂ : Rule) (rest : List Rule), r₁.pattern = nb → r₂.pattern = nb →
      Rules.apply ⟨r₁ :: r₂ :: rest⟩ nb = some r₁.output) := by
  refine ⟨findMatch_eq_none, fun o => findMatch_eq_some, ?_, ?_⟩
  · intro rs₂
    exact findMatch_append t.rules rs₂ nb
  · intro r₁ r₂ rest h₁ _
    simp [Rules.apply, findMatch, h₁]

theorem C8_witness :
    Rules.apply ⟨[⟨[9, 9, 9], 5⟩, ⟨[9, 9, 9], 6⟩]⟩ [9, 9, 9] =
      some (Rule.output ⟨[9, 9, 9], 5⟩) :=
  (C8_rules_apply_first_match ⟨[]⟩ [9, 9, 9]).2.2.2 ⟨[9, 9, 9], 5⟩ ⟨[9, 9, 9], 6⟩ []
    (by decide) (by decide)

/-- A `d`-dimensional Moore neighborhood has `3 ^ d` offset vectors. -/
theorem length_offsetsList : ∀ n : Nat, (offsetsList n).length = 3 ^ n := by
  intro n
  induction n with
  | zero => rfl
  | succ n ih =>
    simp [offsetsList, List.length_flatMap, ih, Function.comp, pow_succ]
    omega

/-- A neighborhood value list has `3 ^ d` entries. -/
theorem length_nbhdList (g : Grid) (c : List Nat) :
    (g.nbhdList c).length = 3 ^ g.dims.length := by
  simp [Grid.nbhdList, length_offsetsList]

/-- C9: on a `d`-dimensional grid, `neighborhood` succeeds on every
coordinate of length `d` and returns exactly `3 ^ d` ordered values in
which every offset position falling outside the addressable range
contributes the background value 0; it fails (with a shape mismatch)
only when the coordinate's length differs from `d`. -/
theorem C9_neighborhood_total (g : Grid) (c : List Nat) :
    (c.length = g.dims.length →
      g.neighborhood c = .ok (g.nbhdList c) ∧
      (g.nbhdList c).length = 3 ^ g.dims.length ∧
      ∀ k, k < 3 ^ g.dims.length →
        inBoundsInt (shiftCoord c ((offsetsList g.dims.length).getD k [])) g.dims = false →
        (g.nbhdList c).getD k 0 = 0) ∧
    (c.length ≠ g.dims.length → g.neighborhood c = .error .shape) := by
  constructor
  · intro h
    refine ⟨g.neighborhood_ok c h, length_nbhdList g c, ?_⟩
    intro k hk hout
    have hk' : k < (offsetsList g.dims.length).length := by
      rw [length_offsetsList]
      exact hk
    have hoff : (offsetsList g.dims.length).getD k [] = (offsetsList g.dims.length)[k] :=
      List.getD_eq_getElem _ _ hk'
    have hmap : (g.nbhdList c).getD k 0 =
        g.atOffset (shiftCoord c (offsetsList g.dims.length)[k]) := by
      rw [Grid.nbhdList, List.getD_eq_getElem?_getD, List.getElem?_map,
        List.getElem?_eq_getElem hk']
      rfl
    rw [hmap, Grid.atOffset]
    rw [hoff] at hout
    simp [hout]
  · intro h
    unfold Grid.neighborhood
    rw [if_neg h]

theorem C9_witness :
    (Grid.neighborhood demoA.grid [0] = .ok (Grid.nbhdList demoA.grid [0]) ∧
      (Grid.nbhdList demoA.grid [0]).length = 3 ^ demoA.grid.dims.length ∧
      ∀ k, k < 3 ^ demoA.grid.dims.length →
        inBoundsInt (shiftCoord [0] ((offsetsList demoA.grid.dims.length).getD k []))
          demoA.grid.dims = false →
        (Grid.nbhdList demoA.grid [0]).getD k 0 = 0) ∧
    Grid.neighborhood demoA.grid [0, 1] = .error .shape :=
  ⟨(C9_neighborhood_total demoA.grid [0]).1 (by decide),
   (C9_neighborhood_total demoA.grid [0, 1]).2 (by decide)⟩

/-- A successful `advance` bumps the generation counter modulo
`2 ^ 32` and keeps the rule table. -/
theorem advance_fst_ok (a : Automaton) (h : (a.advance).1 = .ok ()) :
    (a.advance).2.gen = (a.gen + 1) % 2 ^ 32 ∧ (a.advance).2.rules = a.rules := by
  unfold Automaton.advance Automaton.advanceOn at h ⊢
  cases hs : sweep a.grid a.rules (CoordinatesIterator a.grid.dims)
      ⟨a.grid.dims, a.grid.grid⟩ with
  | ok g => exact ⟨rfl, rfl⟩
  | error e => rw [hs] at h; exact absurd h (by simp)

/-- After `n` successful iterations of the `advance_multi` loop the
generation counter advanced by `n`, modulo `2 ^ 32`. -/
theorem advance_multi_gen (a : Automaton) (n : Nat) (hg : a.gen < 2 ^ 32)
    (h : (a.advance_multi n).1 = .ok ()) :
    (a.advance_multi n).2.gen = (a.gen + n) % 2 ^ 32 := by
  induction n generalizing a with
  | zero =>
    simpa [Automaton.advance_multi] using (Nat.mod_eq_of_lt hg).symm
  | succ n ih =>
    rcases ha : a.advance with ⟨r, a₁⟩
    cases r with
    | error e =>
      have hmulti : a.advance_multi (n + 1) = (.error e, a₁) := by
        simp [Automaton.advance_multi, ha]
      rw [hmulti] at h
      exact absurd h (by simp)
    | ok u =>
      cases u
      have hgen₁ : a₁.gen = (a.gen + 1) % 2 ^ 32 := by
        have hok := advance_fst_ok a (by rw [ha])
        rw [ha] at hok
        exact hok.1
      have hg₁ : a₁.gen < 2 ^ 32 := by
        rw [hgen₁]
        exact Nat.mod_lt _ (by norm_num)
      have hmulti : a.advance_multi (n + 1) = a₁.advance_multi n := by
        simp [Automaton.advance_multi, ha]
      rw [hmulti] at h ⊢
      rw [ih a₁ hg₁ h, hgen₁, Nat.mod_add_mod]
      congr 1
      omega

/-- C10: the generation counter is a `u32`; each successful `advance()`
increments it by one modulo `2 ^ 32`, `n` successful advances move a
counter below `2 ^ 32` to `(gen + n) % 2 ^ 32`, and a successful
`advance()` at counter value `2 ^ 32 - 1` returns it to 0. -/
theorem C10_gen_u32_wraparound (a : Automaton) (n : Nat) :
    ((a.advance).1 = .ok () → (a.advance).2.gen = (a.gen + 1) % 2 ^ 32) ∧
    (a.gen < 2 ^ 32 → (a.advance_multi n).1 = .ok () →
      (a.advance_multi n).2.gen = (a.gen + n) % 2 ^ 32) ∧
    (a.gen = 2 ^ 32 - 1 → (a.advance).1 = .ok () → (a.advance).2.gen = 0) := by
  refine ⟨fun h => (advance_fst_ok a h).1, fun hg h => advance_multi_gen a n hg h, ?_⟩
  intro hgen h
  rw [(advance_fst_ok a h).1, hgen,
    Nat.sub_add_cancel (Nat.one_le_iff_ne_zero.mpr (by norm_num)), Nat.mod_self]

/-- A 1-cell automaton with an empty rule table whose generation counter
sits at the largest `u32` value. -/
def wrapDemo : Automaton := ⟨⟨[1], [5]⟩, ⟨[]⟩, 4294967295⟩

theorem C10_witness :
    ((wrapDemo.advance).2.gen = (wrapDemo.gen + 1) % 2 ^ 32) ∧
    ((wrapDemo.advance_multi 2).2.gen = (wrapDemo.gen + 2) % 2 ^ 32) ∧
    ((wrapDemo.advance).2.gen = 0) :=
  ⟨(C10_gen_u32_wraparound wrapDemo 2).1 (by rfl),
   (C10_gen_u32_wraparound wrapDemo 2).2.1 (by norm_num [wrapDemo]) (by rfl),
   (C10_gen_u32_wraparound wrapDemo 2).2.2 (by norm_num [wrapDemo]) (by rfl)⟩
